import Mathlib

/-!
Verification of the `evian` motion-control library.

We give a shallow embedding of the parts of the code relevant to the
claims under scrutiny:

* `desaturate`                (packages/evian-math/src/lib.rs)
* the `Tank` → `Arcade` blanket implementation
                              (packages/evian-drivetrain/src/model/mod.rs)
* `MoveToPointFuture::poll`   (packages/evian-motion/src/seeking/move_to_point.rs)
* `Tolerances::check` and `Pid::update`, whose sources are not part of the
  excerpt and are therefore modelled from the specification (spec sections
  4.1 and 4.2).

Machine floating-point numbers (`f64`) are embedded as an arbitrary linear
ordered field `α` (instantiated at `ℚ` for concrete evaluation); the
external angle/vector primitives (`Vec2::length`, `Vec2::angle`,
`Angle::wrapped_half`, `sin`, `cos` and the constant `FRAC_PI_2`), which
the spec declares out of scope, are parameters collected in `MathPrims`.
Instants and durations are embedded as field elements (`now`, `dt`, ...).
-/

namespace Evian

/-- A 2D vector, mirroring `evian_math::Vec2<f64>`.
Modelled from the spec: the vector type itself lives in
`packages/evian-math/src/vec2.rs`, which is not part of the excerpt;
the spec (section 2) describes it as a standard 2D vector with
componentwise subtraction, magnitude and bearing. -/
structure Vec2 (α : Type) where
  x : α
  y : α
deriving DecidableEq, Repr

/-- Componentwise vector subtraction (`a - b`), as used by
`this.target_point - position` in `MoveToPointFuture::poll`.
Modelled from the spec: standard 2D vector subtraction. -/
def Vec2.sub {α : Type} [LinearOrderedField α] (a b : Vec2 α) : Vec2 α :=
  ⟨a.x - b.x, a.y - b.y⟩

/-- The external math primitives used by the seeking motion, kept abstract:
the spec (section 1, OUT OF SCOPE) treats generic 2D vector/angle
arithmetic as standard math primitives of the host environment.
`lengthF` embeds `Vec2::length`, `angleF` embeds `Vec2::angle` (bearing),
`sinF`/`cosF` embed `f64::sin`/`f64::cos` on radian values, `wrappedHalfF`
embeds `Angle::wrapped_half` (wrap into the interval `(-pi, pi]`), and
`fracPiTwo` embeds the constant `f64::consts::FRAC_PI_2`. -/
structure MathPrims (α : Type) where
  lengthF : Vec2 α → α
  angleF : Vec2 α → α
  sinF : α → α
  cosF : α → α
  wrappedHalfF : α → α
  fracPiTwo : α

/-- Scales down the values in a list so that none exceed a given maximum
magnitude; embedding of `evian_math::desaturate`
(packages/evian-math/src/lib.rs, lines 34-42).  The Rust source operates
on a fixed-size array `[f64; N]`; we use a list of field elements.  The
parameter `max` of the source is renamed `maxMag` to avoid shadowing the
lattice operation `max`. -/
def desaturate {α : Type} [LinearOrderedField α] (values : List α) (maxMag : α) : List α :=
  let largest_magnitude := values.foldl (fun acc v => max acc |v|) 0
  if maxMag < largest_magnitude then
    values.map (fun v => v * maxMag / largest_magnitude)
  else
    values

/-- Termination predicate state, mirroring `evian_control::Tolerances`.
Modelled from the spec: the struct lives in `evian-control`, outside the
excerpt; section 3 of the spec gives its fields
`{error_tolerance, velocity_tolerance, duration}` plus the hidden mutable
timer `satisfied_since`.  Durations and instants are field elements. -/
structure Tolerances (α : Type) where
  error_tolerance : Option α
  velocity_tolerance : Option α
  duration : Option α
  satisfied_since : Option α
deriving DecidableEq, Repr

/-- Instantaneous satisfaction criteria of `Tolerances::check`.
Modelled from the spec (section 4.1, steps 1-3):
`error_ok = error_tolerance.is_none() || |error| <= error_tolerance`,
`velocity_ok` likewise, `met = error_ok && velocity_ok`. -/
def Tolerances.metB {α : Type} [LinearOrderedField α]
    (t : Tolerances α) (error velocity : α) : Bool :=
  (match t.error_tolerance with
   | none => true
   | some tol => decide (|error| ≤ tol)) &&
  (match t.velocity_tolerance with
   | none => true
   | some tol => decide (|velocity| ≤ tol))

/-- One call of `Tolerances::check(error, velocity)` at time `now`,
returning the boolean result together with the updated state.
Modelled from the spec (section 4.1, steps 4-5): if `duration` is unset,
return `met` directly; else if `met` and `satisfied_since` is unset, set
it to `now`; if `met` and `now - satisfied_since >= duration` return
`true`, else `false`; if not `met`, clear `satisfied_since` and return
`false`. -/
def Tolerances.check {α : Type} [LinearOrderedField α]
    (t : Tolerances α) (error velocity now : α) : Bool × Tolerances α :=
  let met := t.metB error velocity
  match t.duration with
  | none => (met, t)
  | some dur =>
    if met then
      let since := t.satisfied_since.getD now
      (decide (dur ≤ now - since), { t with satisfied_since := some since })
    else
      (false, { t with satisfied_since := none })

/-- PID controller state, mirroring `evian_control::loops::Pid`.
Modelled from the spec (section 3, control-loop state): gains
`kp, ki, kd`, accumulated `integral`, `prev_error`, optional
`integration_range` (anti-windup gate) and optional `output_limit`
(signal clamp). -/
structure Pid (α : Type) where
  kp : α
  ki : α
  kd : α
  integral : α
  prev_error : α
  integration_range : Option α
  output_limit : Option α
deriving DecidableEq, Repr

/-- One `Feedback::update(measurement, setpoint, dt)` call of the PID
controller, returning the control signal and the updated state.
Modelled from the spec (section 4.2): `error = setpoint - measurement`;
the integral accumulates `error * dt` unless `integration_range` is set
and `|error| > integration_range` (anti-windup freeze); the derivative is
`(error - prev_error) / dt`; the signal is
`kp*error + ki*integral + kd*derivative`, clamped to
`[-output_limit, output_limit]` when the limit is set; finally
`prev_error` is set to `error`. -/
def Pid.update {α : Type} [LinearOrderedField α]
    (p : Pid α) (measurement setpoint dt : α) : α × Pid α :=
  let error := setpoint - measurement
  let integral :=
    match p.integration_range with
    | none => p.integral + error * dt
    | some r => if |error| ≤ r then p.integral + error * dt else p.integral
  let derivative := (error - p.prev_error) / dt
  let raw := p.kp * error + p.ki * integral + p.kd * derivative
  let signal :=
    match p.output_limit with
    | none => raw
    | some l => max (-l) (min l raw)
  (signal, { p with integral := integral, prev_error := error })

/-- Dictionary for the `Feedback` trait
(packages/evian-control/src/loops/mod.rs, lines 19-33) with
`State = f64` and `Signal = f64`: `update` consumes the controller's
state together with `(measurement, setpoint, dt)` and produces the
signal plus the updated controller (the Rust method takes `&mut self`). -/
structure FeedbackDict (σ α : Type) where
  update : σ → α → α → α → α × σ

/-- The lazily-initialized scheduling state of the seeking motion,
mirroring `State` in move_to_point.rs (lines 19-23); the `sleep` handle
is represented by the `sleepElapsed` flag passed to `poll`. -/
structure SeekState (α : Type) where
  start_time : α
  prev_time : α
deriving DecidableEq, Repr

/-- The fields of `MoveToPointFuture` (move_to_point.rs, lines 27-42).
The exclusive `drivetrain` borrow is represented by passing the tracking
observation and the kinematics-model state to `poll` explicitly;
`L` and `A` are the linear and lateral controller types. -/
structure MoveToPointFuture (α L A : Type) where
  target_point : Vec2 α
  reverse : Bool
  timeout : Option α
  tolerances : Tolerances α
  linear_controller : L
  lateral_controller : A
  state : Option (SeekState α)

/-- The `reverse` fluent modifier (move_to_point.rs, lines 128-131):
sets the `reverse` flag to `true` and returns the future. -/
def MoveToPointFuture.reverseMod {α L A : Type}
    (f : MoveToPointFuture α L A) : MoveToPointFuture α L A :=
  { f with reverse := true }

/-- One tracking read: the values returned by
`tracking.position()`, `tracking.heading()` and
`tracking.linear_velocity()` on this tick. -/
structure TrackingObs (α : Type) where
  position : Vec2 α
  heading : α
  linear_velocity : α

/-- Observable events of one `poll` call, in program order: the three
tracking reads, the two controller updates (with the measurement and
setpoint they are fed), and the `drive_arcade` command written to the
kinematics model. -/
inductive Event (α : Type) where
  | readPosition : Event α
  | readHeading : Event α
  | readLinearVelocity : Event α
  | updateLateral : α → α → Event α
  | updateLinear : α → α → Event α
  | driveArcade : α → α → Event α
deriving DecidableEq, Repr

/-- Result of one `poll` call: whether the future resolved
(`Poll::Ready(())` — note the output type `()` of the `Future` impl has
no error variant), the updated future, the updated kinematics-model
state, and the trace of observable events. -/
structure TickOut (α L A μ : Type) where
  ready : Bool
  fut : MoveToPointFuture α L A
  model : μ
  events : List (Event α)

/-- The error computation of the seeking law
(move_to_point.rs, lines 79-99): `local_target = target_point - position`,
`distance_error = local_target.length()`,
`angle_error = (heading - local_target.angle()).wrapped_half()`,
`projected_cte = distance_error * angle_error.sin()`, and if
`|angle_error| > FRAC_PI_2` both `projected_cte` and `distance_error`
are multiplied by `-1`.  Returns the final
`(distance_error, projected_cte)` pair. -/
def seekErrors {α L A : Type} [LinearOrderedField α] (p : MathPrims α)
    (fut : MoveToPointFuture α L A) (obs : TrackingObs α) : α × α :=
  let local_target := Vec2.sub fut.target_point obs.position
  let distance_error := p.lengthF local_target
  let angle_error := p.wrappedHalfF (obs.heading - p.angleF local_target)
  let projected_cte := distance_error * p.sinF angle_error
  if p.fracPiTwo < |angle_error| then
    (distance_error * (-1), projected_cte * (-1))
  else
    (distance_error, projected_cte)

/-- The body of a completed tick of `MoveToPointFuture::poll`
(move_to_point.rs, lines 74-114), i.e. a poll on which the internal
sleep timer has elapsed and the scheduling state `st` already exists.
`driveA` is the kinematics model's `drive_arcade`, whose `Result` the
source discards with `drop(...)`; `now` plays the role of
`Instant::now()` on this tick, so `dt = now - st.prev_time` and the
timeout comparison is `now - st.start_time > timeout` (strict, as in
`state.start_time.elapsed() > timeout`). -/
def tickBody {α L A μ ε : Type} [LinearOrderedField α] (p : MathPrims α)
    (dL : FeedbackDict L α) (dA : FeedbackDict A α)
    (driveA : μ → α → α → Except ε Unit × μ) (m : μ)
    (fut : MoveToPointFuture α L A) (st : SeekState α)
    (obs : TrackingObs α) (now : α) : TickOut α L A μ :=
  let dt := now - st.prev_time
  let local_target := Vec2.sub fut.target_point obs.position
  let distance_error := p.lengthF local_target
  let checkRes := fut.tolerances.check distance_error obs.linear_velocity now
  let timedOut :=
    match fut.timeout with
    | none => false
    | some t => decide (now - st.start_time > t)
  if checkRes.1 || timedOut then
    let driven := driveA m 0 0
    { ready := true
      fut := { fut with tolerances := checkRes.2, state := some st }
      model := driven.2
      events := [Event.readPosition, Event.readHeading, Event.readLinearVelocity,
                 Event.driveArcade 0 0] }
  else
    let errs := seekErrors p fut obs
    let angle_error := p.wrappedHalfF (obs.heading - p.angleF local_target)
    let lat := dA.update fut.lateral_controller errs.2 0 dt
    let lin := dL.update fut.linear_controller (-errs.1) 0 dt
    let linear_output := lin.1 * |p.cosF angle_error|
    let driven := driveA m linear_output lat.1
    { ready := false
      fut :=
        { fut with
          tolerances := checkRes.2
          linear_controller := lin.2
          lateral_controller := lat.2
          state := some { start_time := st.start_time, prev_time := now } }
      model := driven.2
      events := [Event.readPosition, Event.readHeading, Event.readLinearVelocity,
                 Event.updateLateral errs.2 0, Event.updateLinear (-errs.1) 0,
                 Event.driveArcade linear_output lat.1] }

/-- Full embedding of `MoveToPointFuture::poll`
(move_to_point.rs, lines 55-115): on the first poll the scheduling state
is created with `start_time = prev_time = now`
(`get_or_insert_with`, lines 60-68); a poll on which the sleep timer is
still pending returns `Poll::Pending` without doing any work
(lines 70-72); otherwise the tick body runs. -/
def MoveToPointFuture.poll {α L A μ ε : Type} [LinearOrderedField α]
    (p : MathPrims α) (dL : FeedbackDict L α) (dA : FeedbackDict A α)
    (driveA : μ → α → α → Except ε Unit × μ) (m : μ)
    (fut : MoveToPointFuture α L A) (obs : TrackingObs α) (now : α)
    (sleepElapsed : Bool) : TickOut α L A μ :=
  let st := fut.state.getD { start_time := now, prev_time := now }
  let fut1 := { fut with state := some st }
  if sleepElapsed then
    tickBody p dL dA driveA m fut1 st obs now
  else
    { ready := false, fut := fut1, model := m, events := [] }

/-- Embedding of the blanket `impl<T: Tank> Arcade for T`
(packages/evian-drivetrain/src/model/mod.rs, lines 50-56):
`drive_arcade(throttle, steer)` desaturates
`[throttle + steer, throttle - steer]` to maximum magnitude `1` and
forwards the pair to `drive_tank`.  `driveT` is the model's
`drive_tank`; besides its result we return the list of
`(left, right)` argument pairs `drive_tank` was invoked with. -/
def arcadeOfTank {α μ ε : Type} [LinearOrderedField α]
    (driveT : μ → α → α → Except ε Unit × μ) (m : μ)
    (throttle steer : α) : (Except ε Unit × μ) × List (α × α) :=
  let scaled := desaturate [throttle + steer, throttle - steer] 1
  let left := scaled.getD 0 0
  let right := scaled.getD 1 0
  (driveT m left right, [(left, right)])

section DesaturateLemmas

variable {α : Type} [LinearOrderedField α]

/-- The magnitude fold of `desaturate` only grows the accumulator. -/
theorem foldl_max_le_acc (values : List α) (b : α) :
    b ≤ values.foldl (fun acc v => max acc |v|) b := by
  induction values generalizing b with
  | nil => exact le_refl b
  | cons w ws ih => exact le_trans (le_max_left b |w|) (ih (max b |w|))

/-- The magnitude fold of `desaturate` bounds every element's magnitude. -/
theorem abs_le_foldl_max (values : List α) (b v : α) (hv : v ∈ values) :
    |v| ≤ values.foldl (fun acc w => max acc |w|) b := by
  induction values generalizing b with
  | nil => cases hv
  | cons w ws ih =>
    rcases List.mem_cons.mp hv with rfl | h
    · exact le_trans (le_max_right b |v|) (foldl_max_le_acc ws (max b |v|))
    · exact ih (max b |w|) h

/-- The magnitude fold of `desaturate` is at most any common bound. -/
theorem foldl_max_le (values : List α) (b c : α) (hb : b ≤ c)
    (h : ∀ v ∈ values, |v| ≤ c) :
    values.foldl (fun acc v => max acc |v|) b ≤ c := by
  induction values generalizing b with
  | nil => exact hb
  | cons w ws ih =>
    exact ih (max b |w|) (max_le hb (h w (by simp)))
      (fun v hv => h v (List.mem_cons_of_mem w hv))

/-- The magnitude fold of `desaturate` is either the initial accumulator or
is attained by some element of the list. -/
theorem foldl_max_attained (values : List α) (b : α) :
    values.foldl (fun acc v => max acc |v|) b = b ∨
      ∃ v ∈ values, |v| = values.foldl (fun acc w => max acc |w|) b := by
  induction values generalizing b with
  | nil => exact Or.inl rfl
  | cons w ws ih =>
    have hstep : (w :: ws).foldl (fun acc v => max acc |v|) b =
        ws.foldl (fun acc v => max acc |v|) (max b |w|) := rfl
    rcases ih (max b |w|) with h | ⟨v, hv, he⟩
    · rcases le_total b |w| with hbw | hwb
      · refine Or.inr ⟨w, List.mem_cons_self w ws, ?_⟩
        rw [hstep, h, max_eq_right hbw]
      · refine Or.inl ?_
        rw [hstep, h, max_eq_left hwb]
    · exact Or.inr ⟨v, List.mem_cons_of_mem w hv, by rw [hstep, ← he]⟩

/-- Every element of a desaturated list has magnitude at most the
(nonnegative) bound, whether or not scaling occurred. -/
theorem abs_desaturate_le (values : List α) (maxMag : α) (hmax : 0 ≤ maxMag)
    (w : α) (hw : w ∈ desaturate values maxMag) : |w| ≤ maxMag := by
  unfold desaturate at hw
  set L := values.foldl (fun acc v => max acc |v|) 0 with hL
  by_cases hc : maxMag < L
  · rw [if_pos hc] at hw
    rcases List.mem_map.mp hw with ⟨v, hv, rfl⟩
    have hL0 : 0 < L := lt_of_le_of_lt hmax hc
    have hvL : |v| ≤ L := abs_le_foldl_max values 0 v hv
    rw [abs_div, abs_mul, abs_of_nonneg hmax, abs_of_pos hL0, div_le_iff₀ hL0]
    calc |v| * maxMag ≤ L * maxMag := mul_le_mul_of_nonneg_right hvL hmax
    _ = maxMag * L := mul_comm L maxMag
  · rw [if_neg hc] at hw
    exact le_trans (abs_le_foldl_max values 0 w hw) (not_lt.mp hc)

/-- A list whose magnitude fold is within the bound is returned
unchanged by `desaturate`. -/
theorem desaturate_eq_self (values : List α) (maxMag : α)
    (h : values.foldl (fun acc v => max acc |v|) 0 ≤ maxMag) :
    desaturate values maxMag = values := by
  simp only [desaturate]
  rw [if_neg (not_lt.mpr h)]

end DesaturateLemmas

/-- Desaturating a two-element list yields a two-element list. -/
theorem desaturate_pair {α : Type} [LinearOrderedField α] (a b mm : α) :
    ∃ x y, desaturate [a, b] mm = [x, y] := by
  simp only [desaturate]
  by_cases hc : mm < List.foldl (fun acc v => max acc |v|) 0 [a, b]
  · rw [if_pos hc]
    exact ⟨_, _, rfl⟩
  · rw [if_neg hc]
    exact ⟨a, b, rfl⟩

/-- C9: for every array `values` (no NaN exists in the exact-field model)
and every `max >= 0`: if every `|values[i]| <= max` then
`desaturate(values, max)` returns the input unchanged; otherwise every
element of the result has absolute value at most `max`, the largest
magnitude is scaled to exactly `max`, all elements are scaled by one
common factor; and `desaturate` is idempotent:
`desaturate(desaturate(values, max), max) = desaturate(values, max)`. -/
theorem desaturate_spec {α : Type} [LinearOrderedField α]
    (values : List α) (maxMag : α) (hmax : 0 ≤ maxMag) :
    ((∀ v ∈ values, |v| ≤ maxMag) → desaturate values maxMag = values) ∧
    ((¬ ∀ v ∈ values, |v| ≤ maxMag) →
      (∀ w ∈ desaturate values maxMag, |w| ≤ maxMag) ∧
      (∃ w ∈ desaturate values maxMag, |w| = maxMag) ∧
      (∃ c, desaturate values maxMag = values.map (fun v => v * c))) ∧
    desaturate (desaturate values maxMag) maxMag = desaturate values maxMag := by
  set L := values.foldl (fun acc v => max acc |v|) 0 with hL
  by_cases hc : maxMag < L
  · have hL0 : 0 < L := lt_of_le_of_lt hmax hc
    have hdesat : desaturate values maxMag =
        values.map (fun v => v * maxMag / L) := by
      unfold desaturate
      rw [← hL, if_pos hc]
    refine ⟨?_, ?_, ?_⟩
    · intro hall
      exact absurd (foldl_max_le values 0 maxMag hmax hall) (not_le.mpr hc)
    · intro _
      refine ⟨abs_desaturate_le values maxMag hmax, ?_, ?_⟩
      · rcases foldl_max_attained values 0 with h0 | ⟨v, hv, he⟩
        · rw [← hL] at h0
          exact absurd (h0 ▸ hL0) (lt_irrefl 0)
        · rw [← hL] at he
          refine ⟨v * maxMag / L, ?_, ?_⟩
          · rw [hdesat]
            exact List.mem_map.mpr ⟨v, hv, rfl⟩
          · rw [abs_div, abs_mul, he, abs_of_nonneg hmax, abs_of_pos hL0,
              mul_comm, mul_div_assoc, div_self (ne_of_gt hL0), mul_one]
      · refine ⟨maxMag / L, ?_⟩
        rw [hdesat]
        exact List.map_congr_left (fun v _ => mul_div_assoc v maxMag L)
    · have hbound : ∀ w ∈ desaturate values maxMag, |w| ≤ maxMag :=
        abs_desaturate_le values maxMag hmax
      exact desaturate_eq_self _ maxMag (foldl_max_le _ 0 maxMag hmax hbound)
  · have hdesat : desaturate values maxMag = values := by
      unfold desaturate
      rw [← hL, if_neg hc]
    refine ⟨fun _ => hdesat, ?_, ?_⟩
    · intro hnall
      rcases not_forall.mp hnall with ⟨v, hv⟩
      rcases not_forall.mp hv with ⟨hmem, hgt⟩
      have : |v| ≤ maxMag :=
        le_trans (abs_le_foldl_max values 0 v hmem) (not_lt.mp hc)
      exact absurd this hgt
    · rw [hdesat, hdesat]

/-- Witness for C9 at a concrete input: with `values = [3, -4, 1]` and
`max = 2` over the rationals, the hypothesis `0 <= 2` holds and the
desaturation specification follows. -/
theorem desaturate_spec_witness :
    (0:ℚ) ≤ 2 ∧
    (((∀ v ∈ ([3, -4, 1] : List ℚ), |v| ≤ 2) → desaturate [3, -4, 1] (2:ℚ) = [3, -4, 1]) ∧
    ((¬ ∀ v ∈ ([3, -4, 1] : List ℚ), |v| ≤ 2) →
      (∀ w ∈ desaturate ([3, -4, 1] : List ℚ) 2, |w| ≤ 2) ∧
      (∃ w ∈ desaturate ([3, -4, 1] : List ℚ) 2, |w| = 2) ∧
      (∃ c, desaturate ([3, -4, 1] : List ℚ) 2 = List.map (fun v => v * c) [3, -4, 1])) ∧
    desaturate (desaturate ([3, -4, 1] : List ℚ) 2) 2 = desaturate ([3, -4, 1] : List ℚ) 2) :=
  ⟨by norm_num, desaturate_spec [3, -4, 1] 2 (by norm_num)⟩

/-- C10: the blanket-derived `drive_arcade(throttle, steer)` of a `Tank`
model calls `drive_tank` exactly once, with left and right powers equal
to `[throttle + steer, throttle - steer]` desaturated to maximum
magnitude `1` (so both magnitudes are at most `1`), and returns exactly
the result of that `drive_tank` call. -/
theorem arcade_of_tank_spec {α μ ε : Type} [LinearOrderedField α]
    (driveT : μ → α → α → Except ε Unit × μ) (m : μ) (throttle steer : α) :
    ∃ left right,
      desaturate [throttle + steer, throttle - steer] (1:α) = [left, right] ∧
      arcadeOfTank driveT m throttle steer = (driveT m left right, [(left, right)]) ∧
      |left| ≤ 1 ∧ |right| ≤ 1 := by
  rcases desaturate_pair (throttle + steer) (throttle - steer) (1:α) with ⟨x, y, heq⟩
  have hx : x ∈ desaturate [throttle + steer, throttle - steer] (1:α) := by
    rw [heq]
    exact List.mem_cons_self x [y]
  have hy : y ∈ desaturate [throttle + steer, throttle - steer] (1:α) := by
    rw [heq]
    exact List.mem_cons_of_mem x (List.mem_cons_self y [])
  refine ⟨x, y, heq, ?_, ?_, ?_⟩
  · simp only [arcadeOfTank, heq]
    rfl
  · exact abs_desaturate_le _ 1 zero_le_one x hx
  · exact abs_desaturate_le _ 1 zero_le_one y hy

/-- C6: for every PID controller with `integration_range = Some(r)`, an
update call whose error `setpoint - measurement` satisfies `|error| > r`
leaves the integral accumulator exactly unchanged, for any `dt` and any
gain values; when `integration_range` is unset or `|error| <= r`, the
update accumulates `integral += error * dt`. -/
theorem pid_integral_spec {α : Type} [LinearOrderedField α]
    (p : Pid α) (measurement setpoint dt : α) :
    (∀ r, p.integration_range = some r → r < |setpoint - measurement| →
      ((p.update measurement setpoint dt).2).integral = p.integral) ∧
    (p.integration_range = none →
      ((p.update measurement setpoint dt).2).integral =
        p.integral + (setpoint - measurement) * dt) ∧
    (∀ r, p.integration_range = some r → |setpoint - measurement| ≤ r →
      ((p.update measurement setpoint dt).2).integral =
        p.integral + (setpoint - measurement) * dt) := by
  refine ⟨?_, ?_, ?_⟩
  · intro r hr hgt
    simp only [Pid.update, hr]
    rw [if_neg (not_le.mpr hgt)]
  · intro h
    simp only [Pid.update, h]
  · intro r hr hle
    simp only [Pid.update, hr]
    rw [if_pos hle]

/-- Concrete PID controller used by the witness of C6. -/
def pidSample : Pid ℚ :=
  ⟨1, 1, 0, 5, 0, some 2, none⟩

/-- Witness for C6 at a concrete input: `pidSample` has
`integration_range = some 2`; updating with measurement `0`, setpoint
`3` and `dt = 1` has error `3` with `2 < |3|`, and the integral stays
at `5`. -/
theorem pid_integral_spec_witness :
    pidSample.integration_range = some 2 ∧ (2:ℚ) < |(3:ℚ) - 0| ∧
    ((pidSample.update 0 3 1).2).integral = 5 :=
  ⟨rfl, by norm_num,
    (pid_integral_spec pidSample 0 3 1).1 2 rfl (by norm_num)⟩

/-- One recorded call of `Tolerances::check`: the error and velocity
arguments and the instant `now` at which the call is made. -/
structure CheckCall (α : Type) where
  error : α
  velocity : α
  time : α
deriving DecidableEq, Repr

/-- Runs a sequence of `check` calls against a `Tolerances` value,
returning the result of the last call (`false` for the empty sequence)
together with the final timer state. -/
def runChecks {α : Type} [LinearOrderedField α]
    (t : Tolerances α) (calls : List (CheckCall α)) : Bool × Tolerances α :=
  calls.foldl (fun acc c => acc.2.check c.error c.velocity c.time) (false, t)

section TolerancesLemmas

variable {α : Type} [LinearOrderedField α]

/-- A `check` call never changes the configured thresholds or duration,
only the `satisfied_since` timer. -/
theorem check_preserves_config (t : Tolerances α) (e v now : α) :
    ((t.check e v now).2).error_tolerance = t.error_tolerance ∧
    ((t.check e v now).2).velocity_tolerance = t.velocity_tolerance ∧
    ((t.check e v now).2).duration = t.duration := by
  rcases hd : t.duration with _ | dur
  · simp [Tolerances.check, hd]
  · by_cases hmet : t.metB e v
    · simp [Tolerances.check, hd, hmet]
    · simp [Tolerances.check, hd, hmet]

/-- The instantaneous criteria only depend on the thresholds. -/
theorem metB_congr (t1 t2 : Tolerances α) (e v : α)
    (he : t1.error_tolerance = t2.error_tolerance)
    (hv : t1.velocity_tolerance = t2.velocity_tolerance) :
    t1.metB e v = t2.metB e v := by
  simp only [Tolerances.metB, he, hv]

/-- A whole sequence of `check` calls never changes the configured
thresholds or duration. -/
theorem runChecks_preserves_config (t : Tolerances α)
    (calls : List (CheckCall α)) :
    ((runChecks t calls).2).error_tolerance = t.error_tolerance ∧
    ((runChecks t calls).2).velocity_tolerance = t.velocity_tolerance ∧
    ((runChecks t calls).2).duration = t.duration := by
  induction calls using List.reverseRecOn with
  | nil => exact ⟨rfl, rfl, rfl⟩
  | append_singleton xs c ih =>
    have hstep : runChecks t (xs ++ [c]) =
        ((runChecks t xs).2).check c.error c.velocity c.time := by
      simp only [runChecks, List.foldl_append, List.foldl_cons, List.foldl_nil]
    rcases check_preserves_config ((runChecks t xs).2) c.error c.velocity c.time
      with ⟨h1, h2, h3⟩
    rw [hstep]
    exact ⟨h1.trans ih.1, h2.trans ih.2.1, h3.trans ih.2.2⟩

/-- Invariant of the `satisfied_since` timer: whenever it is set to `s`
after running a call sequence from a clear initial state, the processed
calls split as `pre ++ c0 :: suf` where the call `c0` was made at time
`s` and every call from `c0` on satisfied the instantaneous criteria. -/
theorem runChecks_since_invariant (t : Tolerances α) (d : α)
    (hdur : t.duration = some d) (h0 : t.satisfied_since = none) :
    ∀ calls s, ((runChecks t calls).2).satisfied_since = some s →
    ∃ pre c0 suf, calls = pre ++ c0 :: suf ∧ c0.time = s ∧
      ∀ c ∈ c0 :: suf, t.metB c.error c.velocity = true := by
  intro calls
  induction calls using List.reverseRecOn with
  | nil =>
    intro s hs
    rw [runChecks, List.foldl_nil] at hs
    rw [h0] at hs
    cases hs
  | append_singleton xs c ih =>
    intro s hs
    have hstep : runChecks t (xs ++ [c]) =
        ((runChecks t xs).2).check c.error c.velocity c.time := by
      simp only [runChecks, List.foldl_append, List.foldl_cons, List.foldl_nil]
    set t1 := (runChecks t xs).2 with ht1
    have hcfg := runChecks_preserves_config t xs
    have hdur1 : t1.duration = some d := hcfg.2.2.trans hdur
    have hmet1 : ∀ e v, t1.metB e v = t.metB e v := fun e v =>
      metB_congr t1 t e v hcfg.1 hcfg.2.1
    rw [hstep] at hs
    simp only [Tolerances.check, hdur1] at hs
    by_cases hmet : t1.metB c.error c.velocity
    · simp only [hmet, if_true] at hs
      rcases hsince : t1.satisfied_since with _ | s0
      · rw [hsince] at hs
        simp only [Option.getD_none, Option.some.injEq] at hs
        refine ⟨xs, c, [], by simp, hs, ?_⟩
        intro c2 hc2
        rcases List.mem_singleton.mp hc2 with rfl
        exact (hmet1 c2.error c2.velocity).symm.trans hmet
      · rw [hsince] at hs
        simp only [Option.getD_some, Option.some.injEq] at hs
        rcases ih s0 hsince with ⟨pre, c0, suf, hsplit, htime, hmetall⟩
        refine ⟨pre, c0, suf ++ [c], ?_, hs ▸ htime, ?_⟩
        · rw [hsplit]
          simp [List.append_assoc]
        · intro c2 hc2
          rcases List.mem_cons.mp hc2 with rfl | hc2
          · exact hmetall c2 (List.mem_cons_self c2 suf)
          · rcases List.mem_append.mp hc2 with hc2 | hc2
            · exact hmetall c2 (List.mem_cons_of_mem c0 hc2)
            · rcases List.mem_singleton.mp hc2 with rfl
              exact (hmet1 c2.error c2.velocity).symm.trans hmet
    · simp only [eq_false_of_ne_true hmet, if_false] at hs
      cases hs

end TolerancesLemmas

/-- C4: for every `Tolerances` value with `duration = Some(d)` and a
clear timer, a call sequence of `check` returns `true` on its last call
only if the instantaneous criteria held on every call of a trailing
contiguous block `c0 :: suf` of the sequence whose time span
`clast.time - c0.time` is at least `d`; and any single call on which the
criteria do not hold clears `satisfied_since` (and returns `false`), so
a fresh contiguous span of length `d` is required again. -/
theorem tolerances_continuity {α : Type} [LinearOrderedField α]
    (t : Tolerances α) (d : α) (calls : List (CheckCall α)) (e v now : α) :
    (t.duration = some d → t.satisfied_since = none →
      (runChecks t calls).1 = true →
      ∃ pre c0 suf clast, calls = pre ++ c0 :: suf ∧
        calls.getLast? = some clast ∧ d ≤ clast.time - c0.time ∧
        ∀ c ∈ c0 :: suf, t.metB c.error c.velocity = true) ∧
    (t.duration = some d → t.metB e v = false →
      t.check e v now = (false, { t with satisfied_since := none })) := by
  constructor
  · intro hdur h0 hres
    rcases List.eq_nil_or_concat calls with rfl | ⟨xs, c, rfl⟩
    · rw [runChecks, List.foldl_nil] at hres
      cases hres
    · simp only [List.concat_eq_append] at hres ⊢
      have hstep : runChecks t (xs ++ [c]) =
          ((runChecks t xs).2).check c.error c.velocity c.time := by
        simp only [runChecks, List.foldl_append, List.foldl_cons, List.foldl_nil]
      set t1 := (runChecks t xs).2 with ht1
      have hcfg := runChecks_preserves_config t xs
      have hdur1 : t1.duration = some d := hcfg.2.2.trans hdur
      have hmet1 : ∀ e2 v2, t1.metB e2 v2 = t.metB e2 v2 := fun e2 v2 =>
        metB_congr t1 t e2 v2 hcfg.1 hcfg.2.1
      rw [hstep] at hres
      simp only [Tolerances.check, hdur1] at hres
      by_cases hmet : t1.metB c.error c.velocity
      · simp only [hmet, if_true, decide_eq_true_eq] at hres
        rcases hsince : t1.satisfied_since with _ | s0
        · rw [hsince] at hres
          simp only [Option.getD_none] at hres
          refine ⟨xs, c, [], c, by simp, List.getLast?_concat xs, hres, ?_⟩
          intro c2 hc2
          rcases List.mem_singleton.mp hc2 with rfl
          exact (hmet1 c2.error c2.velocity).symm.trans hmet
        · rw [hsince] at hres
          simp only [Option.getD_some] at hres
          rcases runChecks_since_invariant t d hdur h0 xs s0 hsince
            with ⟨pre, c0, suf, hsplit, htime, hmetall⟩
          refine ⟨pre, c0, suf ++ [c], c, ?_, List.getLast?_concat xs, ?_, ?_⟩
          · rw [hsplit]
            simp [List.append_assoc]
          · rw [htime]
            exact hres
          · intro c2 hc2
            rcases List.mem_cons.mp hc2 with rfl | hc2
            · exact hmetall c2 (List.mem_cons_self c2 suf)
            · rcases List.mem_append.mp hc2 with hc2 | hc2
              · exact hmetall c2 (List.mem_cons_of_mem c0 hc2)
              · rcases List.mem_singleton.mp hc2 with rfl
                exact (hmet1 c2.error c2.velocity).symm.trans hmet
      · simp only [eq_false_of_ne_true hmet, if_false] at hres
        cases hres
  · intro hdur hmet
    simp [Tolerances.check, hdur, hmet]

/-- Concrete tolerances used by the witness of C4: error tolerance `1`,
no velocity tolerance, required duration `10`, clear timer. -/
def tolSample : Tolerances ℚ :=
  ⟨some 1, none, some 10, none⟩

/-- Concrete call sequence used by the witness of C4: three satisfying
calls at times `0`, `5` and `12`, so the last call spans `12 >= 10`. -/
def callsSample : List (CheckCall ℚ) :=
  [⟨0, 0, 0⟩, ⟨0, 0, 5⟩, ⟨0, 0, 12⟩]

/-- Witness for C4 at a concrete input: `tolSample` has duration `10`
and a clear timer, the three-call sequence `callsSample` makes the last
`check` return `true`, the call `(5, 0)` violates the criteria, and the
conclusions of the continuity theorem follow. -/
theorem tolerances_continuity_witness :
    tolSample.duration = some 10 ∧ tolSample.satisfied_since = none ∧
    (runChecks tolSample callsSample).1 = true ∧
    tolSample.metB 5 0 = false ∧
    (∃ pre c0 suf clast, callsSample = pre ++ c0 :: suf ∧
      callsSample.getLast? = some clast ∧ (10:ℚ) ≤ clast.time - c0.time ∧
      ∀ c ∈ c0 :: suf, tolSample.metB c.error c.velocity = true) ∧
    tolSample.check 5 0 3 = (false, { tolSample with satisfied_since := none }) :=
  ⟨rfl, rfl,
    by norm_num [runChecks, callsSample, tolSample, Tolerances.check, Tolerances.metB],
    by norm_num [tolSample, Tolerances.metB],
    (tolerances_continuity tolSample 10 callsSample 5 0 3).1 rfl rfl
      (by norm_num [runChecks, callsSample, tolSample, Tolerances.check, Tolerances.metB]),
    (tolerances_continuity tolSample 10 callsSample 5 0 3).2 rfl
      (by norm_num [tolSample, Tolerances.metB])⟩

section SeekingLemmas

variable {α L A μ ε : Type} [LinearOrderedField α]

/-- A poll whose sleep timer has elapsed and whose scheduling state is
initialized runs exactly the tick body. -/
theorem poll_elapsed_eq (p : MathPrims α) (dL : FeedbackDict L α)
    (dA : FeedbackDict A α) (driveA : μ → α → α → Except ε Unit × μ) (m : μ)
    (fut : MoveToPointFuture α L A) (st : SeekState α)
    (obs : TrackingObs α) (now : α) :
    MoveToPointFuture.poll p dL dA driveA m { fut with state := some st } obs now true =
      tickBody p dL dA driveA m { fut with state := some st } st obs now := rfl

/-- The tick body on a tick where the completion condition holds. -/
theorem tickBody_pos (p : MathPrims α) (dL : FeedbackDict L α)
    (dA : FeedbackDict A α) (driveA : μ → α → α → Except ε Unit × μ) (m : μ)
    (fut : MoveToPointFuture α L A) (st : SeekState α)
    (obs : TrackingObs α) (now : α)
    (hcond : ((fut.tolerances.check (p.lengthF (Vec2.sub fut.target_point obs.position))
        obs.linear_velocity now).1 ||
      (match fut.timeout with
       | none => false
       | some t => decide (now - st.start_time > t))) = true) :
    tickBody p dL dA driveA m fut st obs now =
      { ready := true
        fut := { fut with
          tolerances := (fut.tolerances.check
            (p.lengthF (Vec2.sub fut.target_point obs.position))
            obs.linear_velocity now).2
          state := some st }
        model := (driveA m 0 0).2
        events := [Event.readPosition, Event.readHeading,
                   Event.readLinearVelocity, Event.driveArcade 0 0] } := by
  simp only [tickBody]
  rw [if_pos hcond]

/-- The tick body on a tick where the completion condition fails. -/
theorem tickBody_neg (p : MathPrims α) (dL : FeedbackDict L α)
    (dA : FeedbackDict A α) (driveA : μ → α → α → Except ε Unit × μ) (m : μ)
    (fut : MoveToPointFuture α L A) (st : SeekState α)
    (obs : TrackingObs α) (now : α)
    (hcond : ¬ (((fut.tolerances.check (p.lengthF (Vec2.sub fut.target_point obs.position))
        obs.linear_velocity now).1 ||
      (match fut.timeout with
       | none => false
       | some t => decide (now - st.start_time > t))) = true)) :
    tickBody p dL dA driveA m fut st obs now =
      (let errs := seekErrors p fut obs
       let angle_error := p.wrappedHalfF (obs.heading -
         p.angleF (Vec2.sub fut.target_point obs.position))
       let lat := dA.update fut.lateral_controller errs.2 0 (now - st.prev_time)
       let lin := dL.update fut.linear_controller (-errs.1) 0 (now - st.prev_time)
       let linear_output := lin.1 * |p.cosF angle_error|
       { ready := false
         fut := { fut with
           tolerances := (fut.tolerances.check
             (p.lengthF (Vec2.sub fut.target_point obs.position))
             obs.linear_velocity now).2
           linear_controller := lin.2
           lateral_controller := lat.2
           state := some { start_time := st.start_time, prev_time := now } }
         model := (driveA m linear_output lat.1).2
         events := [Event.readPosition, Event.readHeading,
                    Event.readLinearVelocity,
                    Event.updateLateral errs.2 0, Event.updateLinear (-errs.1) 0,
                    Event.driveArcade linear_output lat.1] }) := by
  simp only [tickBody]
  rw [if_neg hcond]

/-- The timeout test of the tick body, read as a proposition. -/
theorem timeout_match_eq_true (timeout : Option α) (elapsed : α) :
    ((match timeout with
      | none => false
      | some t => decide (elapsed > t)) = true) ↔
      ∃ tmo, timeout = some tmo ∧ tmo < elapsed := by
  rcases timeout with _ | t
  · simp
  · simp [gt_iff_lt]

end SeekingLemmas

/-- C1: a completed tick of the move-to-point task resolves
(`Poll::Ready(())`) exactly when the tolerances check passes on the
distance error and the tracked linear velocity, or the elapsed time since
the task's first poll (`now - start_time`) strictly exceeds the
configured timeout; in either case the tick issues the stop command
`drive_arcade(0.0, 0.0)` and finishes successfully — the output type of
the future is `()`, so no error can be reported and timeout is a
completion condition, not a failure. -/
theorem move_to_point_completion {α L A μ ε : Type} [LinearOrderedField α]
    (p : MathPrims α) (dL : FeedbackDict L α) (dA : FeedbackDict A α)
    (driveA : μ → α → α → Except ε Unit × μ) (m : μ)
    (fut : MoveToPointFuture α L A) (st : SeekState α)
    (obs : TrackingObs α) (now : α) :
    ((MoveToPointFuture.poll p dL dA driveA m { fut with state := some st }
        obs now true).ready = true ↔
      ((fut.tolerances.check (p.lengthF (Vec2.sub fut.target_point obs.position))
          obs.linear_velocity now).1 = true ∨
        ∃ tmo, fut.timeout = some tmo ∧ tmo < now - st.start_time)) ∧
    ((MoveToPointFuture.poll p dL dA driveA m { fut with state := some st }
        obs now true).ready = true →
      (MoveToPointFuture.poll p dL dA driveA m { fut with state := some st }
        obs now true).events = [Event.readPosition, Event.readHeading,
          Event.readLinearVelocity, Event.driveArcade 0 0]) := by
  rw [poll_elapsed_eq]
  by_cases hcond : (((fut.tolerances.check
      (p.lengthF (Vec2.sub fut.target_point obs.position))
      obs.linear_velocity now).1 ||
    (match fut.timeout with
     | none => false
     | some t => decide (now - st.start_time > t))) = true)
  · rw [tickBody_pos p dL dA driveA m { fut with state := some st } st obs now hcond]
    rcases Bool.or_eq_true_iff.mp hcond with h | h
    · exact ⟨⟨fun _ => Or.inl h, fun _ => rfl⟩, fun _ => rfl⟩
    · exact ⟨⟨fun _ => Or.inr ((timeout_match_eq_true fut.timeout _).mp h),
        fun _ => rfl⟩, fun _ => rfl⟩
  · rw [tickBody_neg p dL dA driveA m { fut with state := some st } st obs now hcond]
    constructor
    · constructor
      · intro h
        cases h
      · intro h
        exfalso
        apply hcond
        rcases h with h | h
        · exact Bool.or_eq_true_iff.mpr (Or.inl h)
        · exact Bool.or_eq_true_iff.mpr
            (Or.inr ((timeout_match_eq_true fut.timeout _).mpr h))
    · intro h
      cases h

/-- C2: with `angle_error` the half-wrapped difference
`wrapped_half(heading - bearing(local_target))` and
`cross_track_error = distance_error * sin(angle_error)`, the error pair
fed onward is negated in both components exactly when
`|angle_error| > pi/2`, and is left unchanged when
`|angle_error| <= pi/2`; on every non-terminating tick the lateral
controller is fed the resulting cross-track error and the linear
controller the negated resulting distance error. -/
theorem move_to_point_rear_negation {α L A μ ε : Type} [LinearOrderedField α]
    (p : MathPrims α) (dL : FeedbackDict L α) (dA : FeedbackDict A α)
    (driveA : μ → α → α → Except ε Unit × μ) (m : μ)
    (fut : MoveToPointFuture α L A) (st : SeekState α)
    (obs : TrackingObs α) (now : α) :
    (seekErrors p fut obs =
      (if p.fracPiTwo <
          |p.wrappedHalfF (obs.heading -
            p.angleF (Vec2.sub fut.target_point obs.position))| then
        (-(p.lengthF (Vec2.sub fut.target_point obs.position)),
         -(p.lengthF (Vec2.sub fut.target_point obs.position) *
           p.sinF (p.wrappedHalfF (obs.heading -
             p.angleF (Vec2.sub fut.target_point obs.position)))))
      else
        (p.lengthF (Vec2.sub fut.target_point obs.position),
         p.lengthF (Vec2.sub fut.target_point obs.position) *
           p.sinF (p.wrappedHalfF (obs.heading -
             p.angleF (Vec2.sub fut.target_point obs.position)))))) ∧
    ((MoveToPointFuture.poll p dL dA driveA m { fut with state := some st }
        obs now true).ready = false →
      Event.updateLateral (seekErrors p fut obs).2 0 ∈
        (MoveToPointFuture.poll p dL dA driveA m { fut with state := some st }
          obs now true).events ∧
      Event.updateLinear (-(seekErrors p fut obs).1) 0 ∈
        (MoveToPointFuture.poll p dL dA driveA m { fut with state := some st }
          obs now true).events) := by
  constructor
  · simp only [seekErrors]
    split
    · rw [mul_neg_one, mul_neg_one]
    · rfl
  · rw [poll_elapsed_eq]
    intro hready
    by_cases hcond : (((fut.tolerances.check
        (p.lengthF (Vec2.sub fut.target_point obs.position))
        obs.linear_velocity now).1 ||
      (match fut.timeout with
       | none => false
       | some t => decide (now - st.start_time > t))) = true)
    · rw [tickBody_pos p dL dA driveA m { fut with state := some st } st obs now hcond] at hready
      cases hready
    · rw [tickBody_neg p dL dA driveA m { fut with state := some st } st obs now hcond]
      have hseek : seekErrors p { fut with state := some st } obs =
          seekErrors p fut obs := rfl
      rw [hseek]
      exact ⟨by simp, by simp⟩

/-- C3: on every non-terminating tick, the drive command issued to the
kinematics model is the arcade pair whose linear component is
`linear_controller.update(-distance_error, 0, dt)` times
`|cos(angle_error)|` and whose angular component is
`lateral_controller.update(cross_track_error, 0, dt)`, where the error
pair carries the rear-approach negation when it applies
(`seekErrors`). -/
theorem move_to_point_signals {α L A μ ε : Type} [LinearOrderedField α]
    (p : MathPrims α) (dL : FeedbackDict L α) (dA : FeedbackDict A α)
    (driveA : μ → α → α → Except ε Unit × μ) (m : μ)
    (fut : MoveToPointFuture α L A) (st : SeekState α)
    (obs : TrackingObs α) (now : α) :
    ((MoveToPointFuture.poll p dL dA driveA m { fut with state := some st }
        obs now true).ready = false →
      (MoveToPointFuture.poll p dL dA driveA m { fut with state := some st }
        obs now true).events.getLast? = some (Event.driveArcade
          ((dL.update fut.linear_controller (-(seekErrors p fut obs).1) 0
            (now - st.prev_time)).1 *
            |p.cosF (p.wrappedHalfF (obs.heading -
              p.angleF (Vec2.sub fut.target_point obs.position)))|)
          ((dA.update fut.lateral_controller (seekErrors p fut obs).2 0
            (now - st.prev_time)).1))) ∧
    ((MoveToPointFuture.poll p dL dA driveA m { fut with state := some st }
        obs now true).ready = false →
      (MoveToPointFuture.poll p dL dA driveA m { fut with state := some st }
        obs now true).model = (driveA m
          ((dL.update fut.linear_controller (-(seekErrors p fut obs).1) 0
            (now - st.prev_time)).1 *
            |p.cosF (p.wrappedHalfF (obs.heading -
              p.angleF (Vec2.sub fut.target_point obs.position)))|)
          ((dA.update fut.lateral_controller (seekErrors p fut obs).2 0
            (now - st.prev_time)).1)).2) := by
  rw [poll_elapsed_eq]
  by_cases hcond : (((fut.tolerances.check
      (p.lengthF (Vec2.sub fut.target_point obs.position))
      obs.linear_velocity now).1 ||
    (match fut.timeout with
     | none => false
     | some t => decide (now - st.start_time > t))) = true)
  · rw [tickBody_pos p dL dA driveA m { fut with state := some st } st obs now hcond]
    exact ⟨(fun h => by cases h), (fun h => by cases h)⟩
  · rw [tickBody_neg p dL dA driveA m { fut with state := some st } st obs now hcond]
    exact ⟨fun _ => rfl, fun _ => rfl⟩

/-- Classifier for tracking-read events. -/
def Event.isRead {α : Type} : Event α → Bool
  | Event.readPosition => true
  | Event.readHeading => true
  | Event.readLinearVelocity => true
  | _ => false

/-- Classifier for control-loop update events. -/
def Event.isUpdate {α : Type} : Event α → Bool
  | Event.updateLateral _ _ => true
  | Event.updateLinear _ _ => true
  | _ => false

/-- Classifier for drive-command events. -/
def Event.isDrive {α : Type} : Event α → Bool
  | Event.driveArcade _ _ => true
  | _ => false

/-- C5: on every completed tick of the move-to-point poll loop, the
event trace decomposes as tracking reads, then control-loop updates,
then a single drive command — so tracking is read before any
control-loop update consumes it — and exactly one drive command is
issued to the drivetrain model: the stop command `(0, 0)` on the
completion tick, otherwise exactly one arcade command. -/
theorem move_to_point_tick_ordering {α L A μ ε : Type} [LinearOrderedField α]
    (p : MathPrims α) (dL : FeedbackDict L α) (dA : FeedbackDict A α)
    (driveA : μ → α → α → Except ε Unit × μ) (m : μ)
    (fut : MoveToPointFuture α L A) (st : SeekState α)
    (obs : TrackingObs α) (now : α) :
    ((MoveToPointFuture.poll p dL dA driveA m { fut with state := some st }
        obs now true).events.countP (fun e => e.isDrive) = 1) ∧
    (∃ rs us d, (MoveToPointFuture.poll p dL dA driveA m
        { fut with state := some st } obs now true).events = rs ++ us ++ [d] ∧
      (∀ e ∈ rs, Event.isRead e = true) ∧
      (∀ e ∈ us, Event.isUpdate e = true) ∧
      Event.isDrive d = true) ∧
    ((MoveToPointFuture.poll p dL dA driveA m { fut with state := some st }
        obs now true).ready = true →
      (MoveToPointFuture.poll p dL dA driveA m { fut with state := some st }
        obs now true).events.getLast? = some (Event.driveArcade 0 0)) ∧
    ((MoveToPointFuture.poll p dL dA driveA m { fut with state := some st }
        obs now true).ready = false →
      ∃ th s, (MoveToPointFuture.poll p dL dA driveA m
        { fut with state := some st } obs now true).events.getLast? =
          some (Event.driveArcade th s)) := by
  rw [poll_elapsed_eq]
  by_cases hcond : (((fut.tolerances.check
      (p.lengthF (Vec2.sub fut.target_point obs.position))
      obs.linear_velocity now).1 ||
    (match fut.timeout with
     | none => false
     | some t => decide (now - st.start_time > t))) = true)
  · rw [tickBody_pos p dL dA driveA m { fut with state := some st } st obs now hcond]
    refine ⟨?_, ?_, ?_, ?_⟩
    · simp [List.countP_cons, Event.isDrive]
    · refine ⟨[Event.readPosition, Event.readHeading, Event.readLinearVelocity],
        [], Event.driveArcade 0 0, rfl, ?_, ?_, rfl⟩
      · intro e he
        simp only [List.mem_cons, List.not_mem_nil, or_false] at he
        rcases he with rfl | rfl | rfl <;> rfl
      · intro e he
        cases he
    · intro _
      rfl
    · intro h
      cases h
  · rw [tickBody_neg p dL dA driveA m { fut with state := some st } st obs now hcond]
    refine ⟨?_, ?_, ?_, ?_⟩
    · simp [List.countP_cons, Event.isDrive]
    · refine ⟨[Event.readPosition, Event.readHeading, Event.readLinearVelocity],
        [Event.updateLateral (seekErrors p { fut with state := some st } obs).2 0,
         Event.updateLinear (-(seekErrors p { fut with state := some st } obs).1) 0],
        _, rfl, ?_, ?_, rfl⟩
      · intro e he
        simp only [List.mem_cons, List.not_mem_nil, or_false] at he
        rcases he with rfl | rfl | rfl <;> rfl
      · intro e he
        simp only [List.mem_cons, List.not_mem_nil, or_false] at he
        rcases he with rfl | rfl <;> rfl
    · intro h
      cases h
    · intro _
      exact ⟨_, _, rfl⟩

/-- C7: a drive command that returns an error is silently discarded:
replacing the kinematics model's `drive_arcade` by any other one that
performs the same state transitions but returns different results — even
of a different error type — leaves the poll's result, the future's state
and the whole event trace unchanged, and the next tick proceeds exactly
as if the command had succeeded. -/
theorem drive_error_discarded {α L A μ ε1 ε2 : Type} [LinearOrderedField α]
    (p : MathPrims α) (dL : FeedbackDict L α) (dA : FeedbackDict A α)
    (driveA : μ → α → α → Except ε1 Unit × μ)
    (driveB : μ → α → α → Except ε2 Unit × μ)
    (hagree : ∀ m2 th s, (driveA m2 th s).2 = (driveB m2 th s).2)
    (m : μ) (fut : MoveToPointFuture α L A) (obs : TrackingObs α)
    (now : α) (sleepElapsed : Bool) :
    MoveToPointFuture.poll p dL dA driveA m fut obs now sleepElapsed =
      MoveToPointFuture.poll p dL dA driveB m fut obs now sleepElapsed := by
  simp only [MoveToPointFuture.poll, tickBody, hagree]

/-- Changing only the `reverse` field of the future changes nothing in a
poll's outcome except that same field of the returned future.  Stated
over explicit constructor fields so that it applies to any two futures
that differ only in `reverse`. -/
theorem poll_reverse_fields {α L A μ ε : Type} [LinearOrderedField α]
    (p : MathPrims α) (dL : FeedbackDict L α) (dA : FeedbackDict A α)
    (driveA : μ → α → α → Except ε Unit × μ) (m : μ) (tp : Vec2 α)
    (r1 r2 : Bool) (tmo : Option α) (tol : Tolerances α) (lc : L) (latc : A)
    (stf : Option (SeekState α)) (obs : TrackingObs α) (now : α) (se : Bool) :
    MoveToPointFuture.poll p dL dA driveA m ⟨tp, r1, tmo, tol, lc, latc, stf⟩
        obs now se =
      (let out := MoveToPointFuture.poll p dL dA driveA m
        ⟨tp, r2, tmo, tol, lc, latc, stf⟩ obs now se
       { out with fut := { out.fut with reverse := r1 } }) := by
  cases se with
  | false => rfl
  | true =>
    simp only [MoveToPointFuture.poll, tickBody, eq_self_iff_true, if_true]
    split_ifs with h
    · rfl
    · rfl

/-- C8: the `reverse` field of `MoveToPointFuture` has no effect on
observable behavior: flipping it changes neither the completion result,
nor the event trace (hence the drive commands), nor the kinematics-model
state, and the rest of the future's state evolves identically; the
`reverse()` modifier sets the flag to `true` and changes nothing else. -/
theorem reverse_no_effect {α L A μ ε : Type} [LinearOrderedField α]
    (p : MathPrims α) (dL : FeedbackDict L α) (dA : FeedbackDict A α)
    (driveA : μ → α → α → Except ε Unit × μ) (m : μ)
    (fut : MoveToPointFuture α L A) (b : Bool) (obs : TrackingObs α)
    (now : α) (sleepElapsed : Bool) :
    MoveToPointFuture.reverseMod fut = { fut with reverse := true } ∧
    (MoveToPointFuture.poll p dL dA driveA m { fut with reverse := b }
        obs now sleepElapsed).ready =
      (MoveToPointFuture.poll p dL dA driveA m fut obs now sleepElapsed).ready ∧
    (MoveToPointFuture.poll p dL dA driveA m { fut with reverse := b }
        obs now sleepElapsed).events =
      (MoveToPointFuture.poll p dL dA driveA m fut obs now sleepElapsed).events ∧
    (MoveToPointFuture.poll p dL dA driveA m { fut with reverse := b }
        obs now sleepElapsed).model =
      (MoveToPointFuture.poll p dL dA driveA m fut obs now sleepElapsed).model ∧
    (MoveToPointFuture.poll p dL dA driveA m { fut with reverse := b }
        obs now sleepElapsed).fut =
      { (MoveToPointFuture.poll p dL dA driveA m fut obs now sleepElapsed).fut
          with reverse := b } := by
  have hpoll := poll_reverse_fields p dL dA driveA m fut.target_point b
    fut.reverse fut.timeout fut.tolerances fut.linear_controller
    fut.lateral_controller fut.state obs now sleepElapsed
  exact ⟨rfl, by rw [hpoll], by rw [hpoll], by rw [hpoll], by rw [hpoll]⟩

/-- Concrete math primitives over `ℚ` used by witnesses: length reads the
`x` component, bearing the `y` component, the trigonometric functions and
the wrap are the identity, and the `FRAC_PI_2` stand-in is `1`. -/
def primsSample : MathPrims ℚ :=
  ⟨fun v => v.x, fun v => v.y, fun a => a, fun a => a, fun a => a, 1⟩

/-- Trivial feedback dictionary over the unit controller state: the
signal is the measurement. -/
def dictUnit : FeedbackDict Unit ℚ :=
  ⟨fun _ meas _ _ => (meas, ())⟩

/-- Concrete move-to-point future used by witnesses: target `(3, 0)`,
error tolerance `0` (never met at distance `3`), no timeout,
initialized scheduling state. -/
def futSample : MoveToPointFuture ℚ Unit Unit :=
  ⟨⟨3, 0⟩, false, none, ⟨some 0, none, none, none⟩, (), (), some ⟨0, 0⟩⟩

/-- Concrete tracking observation used by witnesses: the robot at the
origin with heading `0` and zero linear velocity. -/
def obsSample : TrackingObs ℚ :=
  ⟨⟨0, 0⟩, 0, 0⟩

/-- A kinematics model that always fails its drive command. -/
def driveErr : Unit → ℚ → ℚ → Except Unit Unit × Unit :=
  fun _ _ _ => (Except.error (), ())

/-- A kinematics model that always accepts its drive command. -/
def driveOk : Unit → ℚ → ℚ → Except Unit Unit × Unit :=
  fun _ _ _ => (Except.ok (), ())

/-- Witness for C7 at a concrete input: the always-failing and the
always-succeeding models perform the same (trivial) state transitions,
and a poll against either produces identical outcomes. -/
theorem drive_error_discarded_witness :
    (∀ m2 th s, (driveErr m2 th s).2 = (driveOk m2 th s).2) ∧
    MoveToPointFuture.poll primsSample dictUnit dictUnit driveErr ()
        futSample obsSample 1 true =
      MoveToPointFuture.poll primsSample dictUnit dictUnit driveOk ()
        futSample obsSample 1 true :=
  ⟨fun _ _ _ => rfl,
    drive_error_discarded primsSample dictUnit dictUnit driveErr driveOk
      (fun _ _ _ => rfl) () futSample obsSample 1 true⟩

end Evian
